import Mathlib

/-!
Verification of the Hibachi example SDK's canonical digest encoding and
signing helpers (sources: sdk_ecdsa.ts and the HMAC SDK in examples_hmac.ts).

The decimal arithmetic of bignumber.js on the operations used here
(constructing from a decimal literal, shiftedBy, multipliedBy,
integerValue(ROUND_DOWN)) is exact decimal arithmetic, modelled by ℚ;
ROUND_DOWN is truncation toward zero.  Buffers are modelled as lists of
byte values, hex strings as lists of hex-digit values (0..15).
-/

namespace Hibachi

/-- FEE_MULTIPLIER from sdk_ecdsa.ts: BigNumber(10).pow(8). -/
def FEE_MULTIPLIER : ℚ := 10 ^ 8

/-- PRICE_MULTIPLIER from sdk_ecdsa.ts: BigNumber(2).pow(32). -/
def PRICE_MULTIPLIER : ℚ := 2 ^ 32

inductive OrderSide where
  | ASK
  | BID
deriving DecidableEq, Repr

inductive OrderType where
  | LIMIT
  | MARKET
deriving DecidableEq, Repr

/-- BigNumber.integerValue(BigNumber.ROUND_DOWN): truncation toward zero
(Int.div is T-division, which truncates toward zero). -/
def integerValueRoundDown (q : ℚ) : ℤ := q.num.tdiv (q.den : ℤ)

/-- BigNumber.shiftedBy(n): multiply by 10^n (n may be negative). -/
def shiftedBy (q : ℚ) (n : ℤ) : ℚ := q * 10 ^ n

/-- quantityFromReal from sdk_ecdsa.ts: shiftedBy(underlyingDecimals) then
integerValue(ROUND_DOWN). -/
def quantityFromReal (quantity : ℚ) (underlyingDecimals : ℕ) : ℤ :=
  integerValueRoundDown (shiftedBy quantity (underlyingDecimals : ℤ))

/-- priceFromReal from sdk_ecdsa.ts: shiftedBy(6 - underlyingDecimals),
multipliedBy(PRICE_MULTIPLIER), integerValue(ROUND_DOWN). -/
def priceFromReal (price : ℚ) (underlyingDecimals : ℕ) : ℤ :=
  integerValueRoundDown (shiftedBy price (6 - (underlyingDecimals : ℤ)) * PRICE_MULTIPLIER)

/-- feesPercentWithDecimal from sdk_ecdsa.ts: multipliedBy(FEE_MULTIPLIER),
with no integerValue step. -/
def feesPercentWithDecimal (fees : ℚ) : ℚ := fees * FEE_MULTIPLIER

/-- Big-endian hex digits of a natural number, as produced by
BigNumber.toString(16) for a non-negative integer value ("0" for zero,
no leading zeros otherwise). -/
def hexDigitsBE (v : ℕ) : List ℕ :=
  if _h : v < 16 then [v]
  else hexDigitsBE (v / 16) ++ [v % 16]
termination_by v
decreasing_by exact Nat.div_lt_self (by omega) (by omega)

/-- String.padStart(n, '0') on a digit list: left-pad with zeros up to
length n; a longer list is returned unchanged. -/
def padStart (l : List ℕ) (n : ℕ) : List ℕ :=
  List.replicate (n - l.length) 0 ++ l

/-- Node's Buffer.from(s, 'hex') on a string of hex digits: consecutive
pairs of digits become bytes; a trailing lone digit is dropped. -/
def hexPairsToBytes : List ℕ → List ℕ
  | a :: b :: rest => (16 * a + b) :: hexPairsToBytes rest
  | _ => []

/-- toBytes from sdk_ecdsa.ts: Buffer.from(value.toString(16).padStart(2 *
numBytes, '0'), 'hex'), for a non-negative integer value. -/
def toBytes (v : ℕ) (numBytes : ℕ) : List ℕ :=
  hexPairsToBytes (padStart (hexDigitsBE v) (2 * numBytes))

/-- Specification-side encoder: exactly w big-endian base-256 digits of v,
left-padded with zeros (faithful to the value only when v < 256 ^ w). -/
def beBytes : ℕ → ℕ → List ℕ
  | 0, _ => []
  | w + 1, v => beBytes w (v / 256) ++ [v % 256]

/-- Big-endian value of a byte list (for round-trip statements). -/
def bytesToNatBE (l : List ℕ) : ℕ := l.foldl (fun acc b => 256 * acc + b) 0

/-- Exact rational value of the decimal literal m × 10⁻ᵉ; BigNumber parses
decimal strings exactly, so "0.00001" is decimal 1 5, "0.045" is
decimal 45 3, "100004.0" is decimal 1000040 1. -/
def decimal (m : ℤ) (e : ℕ) : ℚ := Rat.divInt m (10 ^ e)

/-- Byte encoding of one digest field holding an integer value.  The source
hands toBytes a BigNumber; for a negative value BigNumber.toString(16)
starts with a minus sign and Node's hex decoder then produces a malformed
buffer, a path outside this model, so the encoder is modelled on the
non-negative domain and returns none off it. -/
def encodeField (v : ℤ) (w : ℕ) : Option (List ℕ) :=
  if 0 ≤ v then some (toBytes v.toNat w) else none

/-- Byte encoding of a digest field holding a rational value (the fee field
is passed to toBytes without an integerValue step).  A negative or
non-integral value makes BigNumber.toString(16) emit a sign or a radix
point, again a malformed-buffer path outside this model. -/
def encodeRatField (v : ℚ) (w : ℕ) : Option (List ℕ) :=
  if 0 ≤ v ∧ v.den = 1 then some (toBytes v.num.toNat w) else none

/-- OrderPayload from sdk_ecdsa.ts.  price models the optional price string,
none standing for an absent or empty (hence JS-falsy) price; maxFees models
the optional maxFees field. -/
structure OrderPayload where
  nonce : ℕ
  contractId : ℕ
  side : OrderSide
  price : Option ℚ
  totalQuantity : ℚ
  maxFees : Option ℚ
deriving DecidableEq

/-- Side encoding in serializeOrder: payload.side === 'ASK' ? 0 : 1. -/
def sideCode : OrderSide → ℕ
  | OrderSide.ASK => 0
  | OrderSide.BID => 1

/-- DigestSerializer.serializeOrder from sdk_ecdsa.ts: nonce(8) ++
contractId(4) ++ scaledQuantity(8) ++ side(4) ++ [scaledPrice(8) when a
price is present] ++ scaledMaxFees(8). -/
def serializeOrder (payload : OrderPayload) (underlyingDecimals : ℕ) :
    Option (List ℕ) :=
  match encodeField (quantityFromReal payload.totalQuantity underlyingDecimals) 8,
      (match payload.price with
       | some p => encodeField (priceFromReal p underlyingDecimals) 8
       | none => some []),
      encodeRatField (feesPercentWithDecimal (payload.maxFees.getD 0)) 8 with
  | some quantityBytes, some priceBytes, some feeBytes =>
    some (toBytes payload.nonce 8 ++ toBytes payload.contractId 4 ++ quantityBytes
      ++ toBytes (sideCode payload.side) 4 ++ priceBytes ++ feeBytes)
  | _, _, _ => none

/-- DigestSerializer.serializeOrderId from sdk_ecdsa.ts. -/
def serializeOrderId (orderId : ℕ) : List ℕ := toBytes orderId 8

/-- Digest built by createOrder in sdk_ecdsa.ts: the order type is never
consulted; the price argument is stringified and included whenever the
resulting string is truthy (none models an empty price string). -/
def createOrderDigest (orderType : OrderType) (side : OrderSide)
    (quantity : ℚ) (price : Option ℚ) (maxFeesPercent : ℚ) (contractId : ℕ)
    (underlyingDecimals : ℕ) (nonce : ℕ) : Option (List ℕ) :=
  match orderType with
  | _ => serializeOrder
      { nonce := nonce, contractId := contractId, side := side, price := price,
        totalQuantity := quantity, maxFees := some maxFeesPercent }
      underlyingDecimals

/-- quantityFromReal of the HMAC HibachiSDK in examples_hmac.ts: the
underlyingDecimals constant is fixed to 10 there. -/
def hmacQuantityFromReal (quantity : ℚ) : ℤ :=
  integerValueRoundDown (shiftedBy quantity 10)

/-- priceFromReal of the HMAC HibachiSDK in examples_hmac.ts: decimals is
the constant -4 there. -/
def hmacPriceFromReal (price : ℚ) : ℤ :=
  integerValueRoundDown (shiftedBy price (-4) * PRICE_MULTIPLIER)

/-- OrderPayload of the HMAC HibachiSDK (maxFees is a required number). -/
structure HmacOrderPayload where
  nonce : ℕ
  contractId : ℕ
  side : OrderSide
  price : Option ℚ
  totalQuantity : ℚ
  maxFees : ℚ
deriving DecidableEq

/-- HibachiSDK.DigestSerializer.serializeOrder from examples_hmac.ts: the
fee field is scaled with quantityFromReal, that is by 10^10, not 10^8. -/
def hmacSerializeOrder (payload : HmacOrderPayload) : Option (List ℕ) :=
  match encodeField (hmacQuantityFromReal payload.totalQuantity) 8,
      (match payload.price with
       | some p => encodeField (hmacPriceFromReal p) 8
       | none => some []),
      encodeField (hmacQuantityFromReal payload.maxFees) 8 with
  | some quantityBytes, some priceBytes, some feeBytes =>
    some (toBytes payload.nonce 8 ++ toBytes payload.contractId 4 ++ quantityBytes
      ++ toBytes (sideCode payload.side) 4 ++ priceBytes ++ feeBytes)
  | _, _, _ => none

/-- Nonces assigned by sendBatchOrder in sdk_ecdsa.ts: each iteration runs
order.nonce = Date.now() + count with count incremented per element; now i
is the Date.now() reading at iteration i. -/
def ecdsaBatchNonces (now : ℕ → ℕ) (n : ℕ) : List ℕ :=
  (List.range n).map (fun i => now i + i)

/-- Nonce of one batch element in the HMAC SDK's sendBatchOrder:
if (!order.nonce) order.nonce = Date.now(); a supplied nonce of 0 is JS-falsy
and is also replaced, and no per-element index is added. -/
def hmacBatchNonce (now : ℕ → ℕ) (i : ℕ) (supplied : Option ℕ) : ℕ :=
  match supplied with
  | some v => if v = 0 then now i else v
  | none => now i

/-- Nonces of a whole batch in the HMAC SDK's sendBatchOrder. -/
def hmacBatchNonces (now : ℕ → ℕ) (supplied : List (Option ℕ)) : List ℕ :=
  supplied.mapIdx (fun i s => hmacBatchNonce now i s)

/-- Batch actions understood by sendBatchOrder (any other action string
throws before any digest is built). -/
inductive BatchAction where
  | place
  | modify
  | cancel
deriving DecidableEq

/-- Fields of a batch element record used by sendBatchOrder in
sdk_ecdsa.ts. -/
structure BatchElement where
  action : BatchAction
  contractId : ℕ
  quantity : ℚ
  updatedQuantity : ℚ
  side : OrderSide
  price : Option ℚ
  updatedPrice : Option ℚ
  maxFeesPercent : ℚ
  underlyingDecimals : ℕ
  orderId : ℕ
deriving DecidableEq

/-- Digest built for one batch element by sendBatchOrder in sdk_ecdsa.ts:
place passes Number(order.contractId), modify passes the literal 2. -/
def batchElementDigest (e : BatchElement) (nonce : ℕ) : Option (List ℕ) :=
  match e.action with
  | BatchAction.place => serializeOrder
      { nonce := nonce, contractId := e.contractId, side := e.side,
        price := e.price, totalQuantity := e.quantity,
        maxFees := some e.maxFeesPercent } e.underlyingDecimals
  | BatchAction.modify => serializeOrder
      { nonce := nonce, contractId := 2, side := e.side,
        price := e.updatedPrice, totalQuantity := e.updatedQuantity,
        maxFees := some e.maxFeesPercent } e.underlyingDecimals
  | BatchAction.cancel => some (serializeOrderId e.orderId)

/-- Elliptic signature object: r, s and the recoveryParam, which is null
(none) or a small natural number. -/
structure EcdsaSignature where
  r : ℕ
  s : ℕ
  recoveryParam : Option ℕ
deriving DecidableEq

/-- BN.toArrayLike(Buffer, 'be', len): fixed-length big-endian bytes;
bn.js throws when the value needs more than len bytes, modelled as none. -/
def toArrayLikeBE (v : ℕ) (len : ℕ) : Option (List ℕ) :=
  if v < 256 ^ len then some (beBytes len v) else none

/-- signatureToBytes from sdk_ecdsa.ts: 32-byte big-endian r followed by
32-byte big-endian s. -/
def signatureToBytes (sig : EcdsaSignature) : Option (List ℕ) :=
  match toArrayLikeBE sig.r 32, toArrayLikeBE sig.s 32 with
  | some rBytes, some sBytes => some (rBytes ++ sBytes)
  | _, _ => none

/-- Hex characters (as digit values 0..15) of one byte. -/
def byteToHexChars (b : ℕ) : List ℕ := [b / 16, b % 16]

/-- Buffer.toString('hex'): two hex characters per byte. -/
def bytesToHexChars (l : List ℕ) : List ℕ := (l.map byteToHexChars).flatten

/-- Signature payload construction shared by createOrder, cxlOrder,
cxlAllOrders, editOrder, withdraw, transfer and sendBatchOrder in
sdk_ecdsa.ts: signaturePayload starts as the empty string and is assigned
hex(r ‖ s) ++ recoveryParam.toString(16).padStart(2, '0') only under
(recoveryParam || recoveryParam === 0), i.e. only when the recovery id is
not null. -/
def signaturePayloadOf (sig : EcdsaSignature) : Option (List ℕ) :=
  match signatureToBytes sig with
  | none => none
  | some sigBytes =>
    match sig.recoveryParam with
    | some rp => some (bytesToHexChars sigBytes ++ padStart (hexDigitsBE rp) 2)
    | none => some []

/-- Uncompressed secp256k1 public key: the 64-byte x ‖ y form handled by
compressPublicKey / decompressPublicKey, with coordinates in the prime
field of the curve. -/
structure UncompressedPoint (p : ℕ) where
  x : ZMod p
  y : ZMod p
deriving DecidableEq

/-- Compressed secp256k1 public key: the marker byte 02/03 carries the
parity of y (true for odd), followed by x. -/
structure CompressedPoint (p : ℕ) where
  parityOdd : Bool
  x : ZMod p
deriving DecidableEq

/-- Point compression performed by elliptic's encodeCompressed, used by
compressPublicKey in sdk_ecdsa.ts: keep x, record the parity of y. -/
def compressPoint {p : ℕ} (pt : UncompressedPoint p) : CompressedPoint p :=
  ⟨decide (pt.y.val % 2 = 1), pt.x⟩

/-- Square root modulo p computed by elliptic (bn.js redSqrt) for a prime
p ≡ 3 (mod 4): a ^ ((p + 1) / 4). -/
def modSqrtCandidate (p : ℕ) (a : ZMod p) : ZMod p := a ^ ((p + 1) / 4)

/-- Point decompression performed by elliptic's pointFromX, used by
decompressPublicKey in sdk_ecdsa.ts: recover y as the square root of
x³ + 7 (the secp256k1 curve equation has a = 0, b = 7), negating it when
its parity disagrees with the marker byte. -/
def decompressPoint (p : ℕ) (c : CompressedPoint p) : UncompressedPoint p :=
  let y0 := modSqrtCandidate p (c.x ^ 3 + 7)
  ⟨c.x, if decide (y0.val % 2 = 1) = c.parityOdd then y0 else -y0⟩

/-- The golden order of the end-to-end scenario: contractId 2, side ASK,
quantity "0.00001", price "100004.0", maxFeesPercent "0.045",
underlyingDecimals 8, nonce 1700000000000. -/
def goldenOrder : OrderPayload :=
  { nonce := 1700000000000, contractId := 2, side := OrderSide.ASK,
    price := some (decimal 1000040 1), totalQuantity := decimal 1 5,
    maxFees := some (decimal 45 3) }

/-- The golden order with the price left out. -/
def goldenOrderNoPrice : OrderPayload := { goldenOrder with price := none }

/-- Expected digest bytes of the golden order. -/
def goldenDigestBytes : List ℕ :=
  beBytes 8 1700000000000 ++ beBytes 4 2 ++ beBytes 8 1000 ++ beBytes 4 0
    ++ beBytes 8 4295139094691 ++ beBytes 8 4500000

/-- Expected digest bytes of the golden order without a price. -/
def goldenNoPriceBytes : List ℕ :=
  beBytes 8 1700000000000 ++ beBytes 4 2 ++ beBytes 8 1000 ++ beBytes 4 0
    ++ beBytes 8 4500000

end Hibachi

namespace Hibachi

theorem hexDigitsBE_of_lt {v : ℕ} (h : v < 16) : hexDigitsBE v = [v] := by
  rw [hexDigitsBE]
  simp [h]

theorem hexDigitsBE_of_ge {v : ℕ} (h : 16 ≤ v) :
    hexDigitsBE v = hexDigitsBE (v / 16) ++ [v % 16] := by
  rw [hexDigitsBE]
  simp [Nat.not_lt.2 h]

theorem hexDigitsBE_length_le : ∀ (n v : ℕ), v < 16 ^ n → 1 ≤ n →
    (hexDigitsBE v).length ≤ n := by
  intro n v
  induction v using Nat.strong_induction_on generalizing n with
  | _ v ih =>
    intro hv hn
    rcases Nat.lt_or_ge v 16 with h16 | h16
    · rw [hexDigitsBE_of_lt h16]
      simpa using hn
    · have h16n : 16 < 16 ^ n := lt_of_le_of_lt h16 hv
      have hn2 : 2 ≤ n := by
        by_contra hc
        push_neg at hc
        interval_cases n
        norm_num at h16n
      rw [hexDigitsBE_of_ge h16]
      have hdiv : v / 16 < 16 ^ (n - 1) := by
        rw [Nat.div_lt_iff_lt_mul (by omega)]
        calc v < 16 ^ n := hv
        _ = 16 ^ (n - 1) * 16 := by
          rw [← pow_succ]
          congr 1
          omega
      have := ih (v / 16) (Nat.div_lt_self (by omega) (by omega)) (n - 1) hdiv (by omega)
      simp only [List.length_append, List.length_cons, List.length_nil]
      omega

theorem hexPairsToBytes_append_even : ∀ (A B : List ℕ), A.length % 2 = 0 →
    hexPairsToBytes (A ++ B) = hexPairsToBytes A ++ hexPairsToBytes B
  | [], B, _ => by simp [hexPairsToBytes]
  | [a], B, h => by simp at h
  | a :: b :: rest, B, h => by
    have h2 : rest.length % 2 = 0 := by
      have := h
      simp only [List.length_cons] at this
      omega
    show (16 * a + b) :: hexPairsToBytes (rest ++ B)
        = ((16 * a + b) :: hexPairsToBytes rest) ++ hexPairsToBytes B
    rw [hexPairsToBytes_append_even rest B h2]
    rfl

theorem hexPairsToBytes_replicate_zero : ∀ (w : ℕ),
    hexPairsToBytes (List.replicate (2 * w) 0) = List.replicate w 0
  | 0 => by simp [hexPairsToBytes]
  | w + 1 => by
    have h2 : 2 * (w + 1) = (2 * w) + 1 + 1 := by omega
    rw [h2, List.replicate_succ, List.replicate_succ, hexPairsToBytes]
    rw [hexPairsToBytes_replicate_zero w]
    simp [List.replicate_succ]

theorem beBytes_length : ∀ (w v : ℕ), (beBytes w v).length = w
  | 0, _ => rfl
  | w + 1, v => by simp [beBytes, beBytes_length w]

theorem beBytes_zero : ∀ (w : ℕ), beBytes w 0 = List.replicate w 0
  | 0 => rfl
  | w + 1 => by
    show beBytes w (0 / 256) ++ [0 % 256] = _
    rw [Nat.zero_div, beBytes_zero w, Nat.zero_mod, ← List.replicate_succ']

theorem padStart_length (l : List ℕ) (n : ℕ) :
    (padStart l n).length = max n l.length := by
  simp [padStart]
  omega

theorem padStart_append_right (l B : List ℕ) (n : ℕ) :
    padStart (l ++ B) (n + B.length) = padStart l n ++ B := by
  simp only [padStart, List.length_append, Nat.add_sub_add_right, List.append_assoc]

end Hibachi

namespace Hibachi

theorem hexPairsToBytes_padStart_two {v : ℕ} (hv : v < 256) :
    hexPairsToBytes (padStart (hexDigitsBE v) 2) = [v] := by
  rcases Nat.lt_or_ge v 16 with h | h
  · rw [hexDigitsBE_of_lt h]
    show hexPairsToBytes (List.replicate (2 - 1) 0 ++ [v]) = [v]
    norm_num [hexPairsToBytes]
  · have h16 : v / 16 < 16 := by omega
    rw [hexDigitsBE_of_ge h, hexDigitsBE_of_lt h16]
    have hpad : padStart ([v / 16] ++ [v % 16]) 2 = [v / 16, v % 16] := by
      simp [padStart]
    rw [hpad]
    show [16 * (v / 16) + v % 16] = [v]
    congr 1
    omega

theorem toBytes_eq_beBytes : ∀ (w v : ℕ), v < 256 ^ w → toBytes v w = beBytes w v
  | 0, v, hv => by
    have hv0 : v = 0 := by simpa using hv
    subst hv0
    show hexPairsToBytes (padStart (hexDigitsBE 0) 0) = []
    rw [hexDigitsBE_of_lt (by norm_num)]
    show hexPairsToBytes (List.replicate (0 - 1) 0 ++ [0]) = []
    simp [hexPairsToBytes]
  | w + 1, v, hv => by
    rcases Nat.lt_or_ge v 256 with hA | hB
    · -- value below 256: everything is padding plus the two final hex digits
      have hlen : (hexDigitsBE v).length ≤ 2 := by
        refine hexDigitsBE_length_le 2 v ?_ one_le_two
        norm_num
        omega
      have hsplit : padStart (hexDigitsBE v) (2 * (w + 1))
          = List.replicate (2 * w) 0 ++ padStart (hexDigitsBE v) 2 := by
        have harith : 2 * (w + 1) - (hexDigitsBE v).length
            = 2 * w + (2 - (hexDigitsBE v).length) := by omega
        simp only [padStart, harith, List.replicate_add, List.append_assoc]
      show hexPairsToBytes (padStart (hexDigitsBE v) (2 * (w + 1))) = beBytes (w + 1) v
      rw [hsplit, hexPairsToBytes_append_even _ _ (by simp),
        hexPairsToBytes_replicate_zero, hexPairsToBytes_padStart_two hA]
      show List.replicate w 0 ++ [v] = beBytes w (v / 256) ++ [v % 256]
      rw [Nat.div_eq_of_lt hA, Nat.mod_eq_of_lt hA, beBytes_zero]
    · -- value at least 256: peel off the last two hex digits
      have hw1 : 1 ≤ w := by
        rcases Nat.eq_zero_or_pos w with h0 | h1
        · subst h0
          norm_num at hv
          omega
        · exact h1
      have h16 : 16 ≤ v := by omega
      have h16' : 16 ≤ v / 16 := by omega
      have hq : v / 256 < 256 ^ w := by
        rw [Nat.div_lt_iff_lt_mul (by norm_num)]
        calc v < 256 ^ (w + 1) := hv
        _ = 256 ^ w * 256 := by rw [pow_succ]
      have hqlen : (hexDigitsBE (v / 256)).length ≤ 2 * w := by
        refine hexDigitsBE_length_le (2 * w) (v / 256) ?_ (by omega)
        calc v / 256 < 256 ^ w := hq
        _ = 16 ^ (2 * w) := by
          rw [show (256 : ℕ) = 16 ^ 2 by norm_num, ← pow_mul, mul_comm]
      show hexPairsToBytes (padStart (hexDigitsBE v) (2 * (w + 1))) = beBytes (w + 1) v
      rw [hexDigitsBE_of_ge h16, hexDigitsBE_of_ge h16', Nat.div_div_eq_div_mul]
      norm_num
      have hlen2 : 2 * (w + 1) = 2 * w + ([v / 16 % 16, v % 16] : List ℕ).length := by
        simp
        omega
      rw [hlen2, padStart_append_right]
      have heven : (padStart (hexDigitsBE (v / 256)) (2 * w)).length % 2 = 0 := by
        rw [padStart_length]
        omega
      rw [hexPairsToBytes_append_even _ _ heven]
      rw [show hexPairsToBytes (padStart (hexDigitsBE (v / 256)) (2 * w))
        = toBytes (v / 256) w from rfl]
      rw [toBytes_eq_beBytes w (v / 256) hq]
      show beBytes w (v / 256) ++ [16 * (v / 16 % 16) + v % 16]
          = beBytes w (v / 256) ++ [v % 256]
      congr 1
      congr 1
      omega

theorem toBytes_length_of_lt {v w : ℕ} (h : v < 256 ^ w) :
    (toBytes v w).length = w := by
  rw [toBytes_eq_beBytes w v h, beBytes_length]

theorem bytesToNatBE_beBytes : ∀ (w v : ℕ), v < 256 ^ w →
    bytesToNatBE (beBytes w v) = v
  | 0, v, hv => by
    have hv0 : v = 0 := by simpa using hv
    subst hv0
    rfl
  | w + 1, v, hv => by
    have hq : v / 256 < 256 ^ w := by
      rw [Nat.div_lt_iff_lt_mul (by norm_num)]
      calc v < 256 ^ (w + 1) := hv
      _ = 256 ^ w * 256 := by rw [pow_succ]
    show bytesToNatBE (beBytes w (v / 256) ++ [v % 256]) = v
    rw [bytesToNatBE, List.foldl_append]
    rw [show List.foldl (fun acc b => 256 * acc + b) 0 (beBytes w (v / 256))
      = bytesToNatBE (beBytes w (v / 256)) from rfl]
    rw [bytesToNatBE_beBytes w (v / 256) hq]
    show 256 * (v / 256) + v % 256 = v
    omega

end Hibachi

namespace Hibachi

theorem integerValueRoundDown_intCast (n : ℤ) :
    integerValueRoundDown (n : ℚ) = n := by
  simp [integerValueRoundDown, Rat.num_intCast, Rat.den_intCast]

theorem golden_quantity : quantityFromReal (decimal 1 5) 8 = 1000 := by
  have h : shiftedBy (decimal 1 5) ((8 : ℕ) : ℤ) = Rat.divInt 1000 1 := by
    rw [shiftedBy, decimal, Rat.divInt_eq_div, Rat.divInt_eq_div]
    push_cast
    norm_num
  rw [quantityFromReal, h]
  decide

theorem golden_price : priceFromReal (decimal 1000040 1) 8 = 4295139094691 := by
  have h : shiftedBy (decimal 1000040 1) (6 - ((8 : ℕ) : ℤ)) * PRICE_MULTIPLIER
      = Rat.divInt 107378477367296 25 := by
    rw [shiftedBy, decimal, PRICE_MULTIPLIER, Rat.divInt_eq_div, Rat.divInt_eq_div]
    push_cast
    norm_num
  rw [priceFromReal, h]
  decide

theorem golden_fee : feesPercentWithDecimal (decimal 45 3) = ((4500000 : ℤ) : ℚ) := by
  rw [feesPercentWithDecimal, FEE_MULTIPLIER, decimal, Rat.divInt_eq_div]
  push_cast
  norm_num

theorem serializeOrder_eval (payload : OrderPayload) (d : ℕ)
    (hq : 0 ≤ quantityFromReal payload.totalQuantity d)
    (hf : 0 ≤ feesPercentWithDecimal (payload.maxFees.getD 0))
    (hfd : (feesPercentWithDecimal (payload.maxFees.getD 0)).den = 1)
    (hp : ∀ p, payload.price = some p → 0 ≤ priceFromReal p d) :
    serializeOrder payload d
      = some (toBytes payload.nonce 8 ++ toBytes payload.contractId 4
        ++ toBytes (quantityFromReal payload.totalQuantity d).toNat 8
        ++ toBytes (sideCode payload.side) 4
        ++ (match payload.price with
            | some p => toBytes (priceFromReal p d).toNat 8
            | none => [])
        ++ toBytes (feesPercentWithDecimal (payload.maxFees.getD 0)).num.toNat 8) := by
  cases hpr : payload.price with
  | none => simp [serializeOrder, hpr, encodeField, encodeRatField, hq, hf, hfd]
  | some p =>
    simp [serializeOrder, hpr, encodeField, encodeRatField, hq, hf, hfd, hp p hpr]



end Hibachi

namespace Hibachi

theorem goldenOrder_digest : serializeOrder goldenOrder 8 = some goldenDigestBytes := by
  have hq : 0 ≤ quantityFromReal goldenOrder.totalQuantity 8 := by
    show 0 ≤ quantityFromReal (decimal 1 5) 8
    rw [golden_quantity]
    norm_num
  have hf : 0 ≤ feesPercentWithDecimal (goldenOrder.maxFees.getD 0) := by
    show 0 ≤ feesPercentWithDecimal (decimal 45 3)
    rw [golden_fee]
    norm_num
  have hfd : (feesPercentWithDecimal (goldenOrder.maxFees.getD 0)).den = 1 := by
    show (feesPercentWithDecimal (decimal 45 3)).den = 1
    rw [golden_fee, Rat.den_intCast]
  have hp : ∀ p, goldenOrder.price = some p → 0 ≤ priceFromReal p 8 := by
    intro p hp
    have hpe : p = decimal 1000040 1 := by
      rw [show goldenOrder.price = some (decimal 1000040 1) from rfl] at hp
      exact (Option.some_inj.mp hp).symm
    subst hpe
    rw [golden_price]
    norm_num
  rw [serializeOrder_eval goldenOrder 8 hq hf hfd hp]
  show some (toBytes 1700000000000 8 ++ toBytes 2 4
      ++ toBytes (quantityFromReal (decimal 1 5) 8).toNat 8
      ++ toBytes (sideCode OrderSide.ASK) 4
      ++ toBytes (priceFromReal (decimal 1000040 1) 8).toNat 8
      ++ toBytes (feesPercentWithDecimal (decimal 45 3)).num.toNat 8)
    = some goldenDigestBytes
  rw [golden_quantity, golden_price, golden_fee, goldenDigestBytes]
  rw [show ((1000 : ℤ)).toNat = 1000 from rfl,
    show ((4295139094691 : ℤ)).toNat = 4295139094691 from rfl,
    show (((4500000 : ℤ) : ℚ)).num.toNat = 4500000 from rfl,
    show sideCode OrderSide.ASK = 0 from rfl]
  rw [toBytes_eq_beBytes 8 1700000000000 (by norm_num),
    toBytes_eq_beBytes 4 2 (by norm_num),
    toBytes_eq_beBytes 8 1000 (by norm_num),
    toBytes_eq_beBytes 4 0 (by norm_num),
    toBytes_eq_beBytes 8 4295139094691 (by norm_num),
    toBytes_eq_beBytes 8 4500000 (by norm_num)]

theorem goldenNoPrice_digest :
    serializeOrder goldenOrderNoPrice 8 = some goldenNoPriceBytes := by
  have hq : 0 ≤ quantityFromReal goldenOrderNoPrice.totalQuantity 8 := by
    show 0 ≤ quantityFromReal (decimal 1 5) 8
    rw [golden_quantity]
    norm_num
  have hf : 0 ≤ feesPercentWithDecimal (goldenOrderNoPrice.maxFees.getD 0) := by
    show 0 ≤ feesPercentWithDecimal (decimal 45 3)
    rw [golden_fee]
    norm_num
  have hfd : (feesPercentWithDecimal (goldenOrderNoPrice.maxFees.getD 0)).den = 1 := by
    show (feesPercentWithDecimal (decimal 45 3)).den = 1
    rw [golden_fee, Rat.den_intCast]
  have hp : ∀ p, goldenOrderNoPrice.price = some p → 0 ≤ priceFromReal p 8 := by
    intro p hp
    exact absurd hp (by simp [goldenOrderNoPrice, goldenOrder])
  rw [serializeOrder_eval goldenOrderNoPrice 8 hq hf hfd hp]
  show some (toBytes 1700000000000 8 ++ toBytes 2 4
      ++ toBytes (quantityFromReal (decimal 1 5) 8).toNat 8
      ++ toBytes (sideCode OrderSide.ASK) 4 ++ []
      ++ toBytes (feesPercentWithDecimal (decimal 45 3)).num.toNat 8)
    = some goldenNoPriceBytes
  rw [golden_quantity, golden_fee, goldenNoPriceBytes]
  rw [show ((1000 : ℤ)).toNat = 1000 from rfl,
    show (((4500000 : ℤ) : ℚ)).num.toNat = 4500000 from rfl,
    show sideCode OrderSide.ASK = 0 from rfl]
  rw [toBytes_eq_beBytes 8 1700000000000 (by norm_num),
    toBytes_eq_beBytes 4 2 (by norm_num),
    toBytes_eq_beBytes 8 1000 (by norm_num),
    toBytes_eq_beBytes 4 0 (by norm_num),
    toBytes_eq_beBytes 8 4500000 (by norm_num)]
  simp

theorem bytesToHexChars_length (l : List ℕ) :
    (bytesToHexChars l).length = 2 * l.length := by
  induction l with
  | nil => rfl
  | cons b t ih =>
    simp only [bytesToHexChars, List.map_cons, List.flatten_cons] at ih ⊢
    simp only [List.length_append, List.length_cons, ih, byteToHexChars,
      List.length_nil]
    omega

end Hibachi

namespace Hibachi

/-- C1: for every order instruction whose scaled fields lie in the
encoder's non-negative domain, the canonical digest is the concatenation
nonce(8) ‖ contractId(4) ‖ scaledQuantity(8) ‖ side(4, 0 for ASK and 1 for
BID) ‖ scaledPrice(8) when a price is present ‖ scaledMaxFees(8), all
big-endian; the golden order (contractId 2, ASK, "0.00001", "100004.0",
"0.045", 8 decimals, nonce 1700000000000) produces a 40-byte digest. -/
theorem C1_order_digest_layout :
    (∀ (payload : OrderPayload) (d : ℕ),
        0 ≤ quantityFromReal payload.totalQuantity d →
        0 ≤ feesPercentWithDecimal (payload.maxFees.getD 0) →
        (feesPercentWithDecimal (payload.maxFees.getD 0)).den = 1 →
        (∀ p, payload.price = some p → 0 ≤ priceFromReal p d) →
        serializeOrder payload d
          = some (toBytes payload.nonce 8 ++ toBytes payload.contractId 4
            ++ toBytes (quantityFromReal payload.totalQuantity d).toNat 8
            ++ toBytes (sideCode payload.side) 4
            ++ (match payload.price with
                | some p => toBytes (priceFromReal p d).toNat 8
                | none => [])
            ++ toBytes (feesPercentWithDecimal (payload.maxFees.getD 0)).num.toNat 8))
    ∧ sideCode OrderSide.ASK = 0 ∧ sideCode OrderSide.BID = 1
    ∧ serializeOrder goldenOrder 8 = some goldenDigestBytes
    ∧ goldenDigestBytes.length = 40 := by
  refine ⟨fun payload d hq hf hfd hp => serializeOrder_eval payload d hq hf hfd hp,
    rfl, rfl, goldenOrder_digest, ?_⟩
  rw [goldenDigestBytes]
  simp [beBytes_length]

/-- Witness for C1: the layout theorem applied to the golden order. -/
theorem C1_order_digest_layout_witness :
    serializeOrder goldenOrder 8
      = some (toBytes goldenOrder.nonce 8 ++ toBytes goldenOrder.contractId 4
        ++ toBytes (quantityFromReal goldenOrder.totalQuantity 8).toNat 8
        ++ toBytes (sideCode goldenOrder.side) 4
        ++ (match goldenOrder.price with
            | some p => toBytes (priceFromReal p 8).toNat 8
            | none => [])
        ++ toBytes (feesPercentWithDecimal (goldenOrder.maxFees.getD 0)).num.toNat 8) :=
  C1_order_digest_layout.1 goldenOrder 8
    (by show 0 ≤ quantityFromReal (decimal 1 5) 8
        rw [golden_quantity]
        norm_num)
    (by show 0 ≤ feesPercentWithDecimal (decimal 45 3)
        rw [golden_fee]
        norm_num)
    (by show (feesPercentWithDecimal (decimal 45 3)).den = 1
        rw [golden_fee, Rat.den_intCast])
    (by intro p hp
        rw [show goldenOrder.price = some (decimal 1000040 1) from rfl] at hp
        obtain rfl := Option.some_inj.mp hp
        rw [golden_price]
        norm_num)

/-- C2: the price conversion multiplies by 10^(6 − d), then by the fixed
binary multiplier 2^32, and truncates toward zero; at the golden price
"100004.0" with 8 decimals this yields 4295139094691. -/
theorem C2_price_to_integer :
    (∀ (p : ℚ) (d : ℕ),
        priceFromReal p d
          = integerValueRoundDown (p * 10 ^ (6 - (d : ℤ)) * 2 ^ 32))
    ∧ priceFromReal (decimal 1000040 1) 8
        = integerValueRoundDown (decimal 1000040 1 * 10 ^ (6 - ((8 : ℕ) : ℤ)) * 2 ^ 32)
    ∧ priceFromReal (decimal 1000040 1) 8 = 4295139094691 :=
  ⟨fun _ _ => rfl, rfl, golden_price⟩

/-- Counterexample to C7: quantityToInteger("-1", 8) does not fail; it
returns the scaled integer -10^8. -/
theorem C7_negative_not_rejected :
    quantityFromReal (-1) 8 = -(10 : ℤ) ^ 8 := by
  have h : shiftedBy (-1) ((8 : ℕ) : ℤ) = Rat.divInt (-100000000) 1 := by
    rw [shiftedBy, Rat.divInt_eq_div]
    push_cast
    norm_num
  rw [quantityFromReal, h]
  decide

/-- C7 amended: the quantity conversion performs no sign check; a negative
input is scaled and truncated like any other, so quantityToInteger("-1", d)
returns -10^d. -/
theorem C7_negative_quantity_scaled :
    (∀ (q : ℚ) (d : ℕ),
        quantityFromReal q d = integerValueRoundDown (q * 10 ^ ((d : ℕ) : ℤ)))
    ∧ (∀ d : ℕ, quantityFromReal (-1) d = -(10 : ℤ) ^ d) := by
  refine ⟨fun q d => rfl, fun d => ?_⟩
  have h : shiftedBy (-1) ((d : ℕ) : ℤ) = ((-(10 : ℤ) ^ d : ℤ) : ℚ) := by
    rw [shiftedBy, zpow_natCast]
    push_cast
    ring
  rw [quantityFromReal, h, integerValueRoundDown_intCast]

/-- Counterexample to C6: in the HMAC SDK the fee field of an order digest
is scaled by 10^10 (the quantity conversion), so "0.045" becomes 450000000,
not trunc(0.045 × 10^8) = 4500000; and in the ECDSA SDK the conversion does
not truncate at all, so at v = 10^-9 it returns 0.1 rather than the
truncated integer 0. -/
theorem C6_fee_truncation_counterexample :
    hmacQuantityFromReal (decimal 45 3) = 450000000
    ∧ integerValueRoundDown (decimal 45 3 * 10 ^ (8 : ℕ)) = 4500000
    ∧ feesPercentWithDecimal (decimal 1 9)
        ≠ ((integerValueRoundDown (decimal 1 9 * 10 ^ (8 : ℕ)) : ℤ) : ℚ) := by
  refine ⟨?_, ?_, ?_⟩
  · have h : shiftedBy (decimal 45 3) 10 = Rat.divInt 450000000 1 := by
      rw [shiftedBy, decimal, Rat.divInt_eq_div, Rat.divInt_eq_div]
      push_cast
      norm_num
    rw [hmacQuantityFromReal, h]
    decide
  · have h : decimal 45 3 * 10 ^ (8 : ℕ) = Rat.divInt 4500000 1 := by
      rw [decimal, Rat.divInt_eq_div, Rat.divInt_eq_div]
      push_cast
      norm_num
    rw [h]
    decide
  · have h1 : feesPercentWithDecimal (decimal 1 9) = Rat.divInt 1 10 := by
      rw [feesPercentWithDecimal, FEE_MULTIPLIER, decimal, Rat.divInt_eq_div,
        Rat.divInt_eq_div]
      push_cast
      norm_num
    have h2 : decimal 1 9 * 10 ^ (8 : ℕ) = Rat.divInt 1 10 := by
      rw [decimal, Rat.divInt_eq_div, Rat.divInt_eq_div]
      push_cast
      norm_num
    rw [h1, h2]
    intro hcon
    rw [show integerValueRoundDown (Rat.divInt 1 10) = 0 from by decide] at hcon
    rw [Int.cast_zero] at hcon
    norm_num [Rat.divInt_eq_div] at hcon

/-- C6 amended: in the ECDSA SDK the fee conversion multiplies by 10^8 and
does not truncate (it agrees with truncation exactly when v·10^8 is an
integer), while the HMAC SDK's order serializer scales fees with the
quantity conversion, i.e. by 10^10 with truncation. -/
theorem C6_fee_conversion_amended :
    (∀ v : ℚ, feesPercentWithDecimal v = v * 10 ^ (8 : ℕ))
    ∧ (∀ v : ℚ, (v * 10 ^ (8 : ℕ)).den = 1 →
        feesPercentWithDecimal v
          = ((integerValueRoundDown (v * 10 ^ (8 : ℕ)) : ℤ) : ℚ))
    ∧ (∀ v : ℚ, hmacQuantityFromReal v = integerValueRoundDown (v * 10 ^ (10 : ℤ))) := by
  refine ⟨fun v => rfl, fun v hv => ?_, fun v => rfl⟩
  have h1 : integerValueRoundDown (v * 10 ^ (8 : ℕ)) = (v * 10 ^ (8 : ℕ)).num := by
    rw [integerValueRoundDown, hv]
    simp [Int.tdiv_one]
  rw [h1, (Rat.den_eq_one_iff _).mp hv]
  rfl

/-- Witness for the C6 amendment at the golden fee "0.045". -/
theorem C6_fee_conversion_amended_witness :
    feesPercentWithDecimal (decimal 45 3)
      = ((integerValueRoundDown (decimal 45 3 * 10 ^ (8 : ℕ)) : ℤ) : ℚ) :=
  C6_fee_conversion_amended.2.1 (decimal 45 3) (by
    rw [show decimal 45 3 * 10 ^ (8 : ℕ) = ((4500000 : ℤ) : ℚ) from by
      rw [decimal, Rat.divInt_eq_div]
      push_cast
      norm_num]
    rw [Rat.den_intCast])

end Hibachi

namespace Hibachi

theorem hexDigitsBE_pow16 : ∀ k : ℕ, hexDigitsBE (16 ^ k) = 1 :: List.replicate k 0
  | 0 => by
    rw [pow_zero, hexDigitsBE_of_lt (by norm_num)]
    rfl
  | k + 1 => by
    have h16 : 16 ≤ 16 ^ (k + 1) := by
      calc (16 : ℕ) = 16 ^ 1 := (pow_one 16).symm
      _ ≤ 16 ^ (k + 1) := Nat.pow_le_pow_right (by omega) (by omega)
    rw [hexDigitsBE_of_ge h16]
    have hd : 16 ^ (k + 1) / 16 = 16 ^ k := by
      rw [pow_succ, Nat.mul_div_cancel _ (by norm_num)]
    have hm : 16 ^ (k + 1) % 16 = 0 := by
      rw [pow_succ]
      exact Nat.mul_mod_left _ 16
    rw [hd, hm, hexDigitsBE_pow16 k, List.replicate_succ']
    rfl

theorem toBytes_two_pow_64 : toBytes (2 ^ 64) 8 = 16 :: List.replicate 7 0 := by
  rw [show (2 : ℕ) ^ 64 = 16 ^ 16 from by norm_num, toBytes, hexDigitsBE_pow16]
  rw [show padStart (1 :: List.replicate 16 0) (2 * 8) = 1 :: List.replicate 16 0 from by
    simp [padStart]]
  rw [show (1 : ℕ) :: List.replicate 16 0 = [1, 0] ++ (List.replicate 14 0 ++ [0]) from by
    decide]
  rw [hexPairsToBytes_append_even [1, 0] _ (by simp)]
  rw [hexPairsToBytes_append_even (List.replicate 14 0) [0] (by simp)]
  rw [show List.replicate 14 (0 : ℕ) = List.replicate (2 * 7) 0 from rfl,
    hexPairsToBytes_replicate_zero]
  simp [hexPairsToBytes]

/-- Counterexample to C3: a MARKET order that carries a price produces the
same 40-byte digest as the LIMIT order (the order type is never consulted
and the price field is not omitted); genuinely omitting the price shortens
the digest by 8 bytes, not 24. -/
theorem C3_market_price_counterexample :
    createOrderDigest OrderType.MARKET OrderSide.ASK (decimal 1 5)
        (some (decimal 1000040 1)) (decimal 45 3) 2 8 1700000000000
      = some goldenDigestBytes
    ∧ createOrderDigest OrderType.LIMIT OrderSide.ASK (decimal 1 5)
        (some (decimal 1000040 1)) (decimal 45 3) 2 8 1700000000000
      = some goldenDigestBytes
    ∧ goldenDigestBytes.length = 40
    ∧ serializeOrder goldenOrderNoPrice 8 = some goldenNoPriceBytes
    ∧ goldenNoPriceBytes.length = 32
    ∧ goldenDigestBytes.length ≠ goldenNoPriceBytes.length + 24 := by
  refine ⟨?_, ?_, ?_, goldenNoPrice_digest, ?_, ?_⟩
  · show serializeOrder goldenOrder 8 = some goldenDigestBytes
    exact goldenOrder_digest
  · show serializeOrder goldenOrder 8 = some goldenDigestBytes
    exact goldenOrder_digest
  · rw [goldenDigestBytes]
    simp [beBytes_length]
  · rw [goldenNoPriceBytes]
    simp [beBytes_length]
  · rw [goldenDigestBytes, goldenNoPriceBytes]
    simp [beBytes_length]

/-- C3 amended: an order without an explicit price omits the 8-byte price
field entirely (nothing is zero-filled), making the digest exactly 8 bytes
shorter than the same order with a fitting price; the digest never depends
on the declared order type, so a MARKET order omits the price only when no
price is supplied. -/
theorem C3_price_omission_amended :
    (∀ (payload : OrderPayload) (d : ℕ) (p : ℚ),
        payload.price = some p →
        0 ≤ quantityFromReal payload.totalQuantity d →
        0 ≤ feesPercentWithDecimal (payload.maxFees.getD 0) →
        (feesPercentWithDecimal (payload.maxFees.getD 0)).den = 1 →
        0 ≤ priceFromReal p d →
        (priceFromReal p d).toNat < 256 ^ 8 →
        ∃ dWith dWithout : List ℕ,
          serializeOrder payload d = some dWith
          ∧ serializeOrder { payload with price := none } d = some dWithout
          ∧ dWith.length = dWithout.length + 8)
    ∧ (∀ (ot : OrderType) (side : OrderSide) (q : ℚ) (price : Option ℚ)
        (fee : ℚ) (cid d n : ℕ),
        createOrderDigest ot side q price fee cid d n
          = createOrderDigest OrderType.LIMIT side q price fee cid d n) := by
  constructor
  · intro payload d p hpr hq hf hfd hpv hfit
    have hp : ∀ p0, payload.price = some p0 → 0 ≤ priceFromReal p0 d := by
      intro p0 h0
      rw [hpr] at h0
      obtain rfl := Option.some_inj.mp h0
      exact hpv
    have hnone : ∀ p0, ({ payload with price := none } : OrderPayload).price = some p0 →
        0 ≤ priceFromReal p0 d := by
      intro p0 h0
      simp at h0
    refine ⟨_, _, serializeOrder_eval payload d hq hf hfd hp,
      serializeOrder_eval { payload with price := none } d hq hf hfd hnone, ?_⟩
    rw [hpr]
    simp only [List.length_append, List.length_nil]
    have h8 : (toBytes (priceFromReal p d).toNat 8).length = 8 :=
      toBytes_length_of_lt hfit
    omega
  · intro ot side q price fee cid d n
    cases ot <;> rfl

/-- Witness for the C3 amendment at the golden order. -/
theorem C3_price_omission_amended_witness :
    ∃ dWith dWithout : List ℕ,
      serializeOrder goldenOrder 8 = some dWith
      ∧ serializeOrder { goldenOrder with price := none } 8 = some dWithout
      ∧ dWith.length = dWithout.length + 8 :=
  C3_price_omission_amended.1 goldenOrder 8 (decimal 1000040 1) rfl
    (by show 0 ≤ quantityFromReal (decimal 1 5) 8
        rw [golden_quantity]
        norm_num)
    (by show 0 ≤ feesPercentWithDecimal (decimal 45 3)
        rw [golden_fee]
        norm_num)
    (by show (feesPercentWithDecimal (decimal 45 3)).den = 1
        rw [golden_fee, Rat.den_intCast])
    (by rw [golden_price]
        norm_num)
    (by rw [golden_price]
        norm_num)

/-- Counterexample to C4: encoding 2^64, which needs 9 bytes, into an
8-byte field does not fail; it silently returns an 8-byte buffer holding
the wrong value 2^60 (the odd-length hex string loses its last digit). -/
theorem C4_integer_too_large_counterexample :
    toBytes (2 ^ 64) 8 = [16, 0, 0, 0, 0, 0, 0, 0]
    ∧ (toBytes (2 ^ 64) 8).length = 8
    ∧ bytesToNatBE (toBytes (2 ^ 64) 8) = 2 ^ 60
    ∧ bytesToNatBE (toBytes (2 ^ 64) 8) ≠ 2 ^ 64 := by
  rw [toBytes_two_pow_64]
  refine ⟨by decide, by decide, by decide, by decide⟩

/-- C4 amended: when v fits in w bytes the encoder returns exactly the w
big-endian bytes of v, left-padded with zeros; when v does not fit, no
IntegerTooLarge failure exists: a buffer is still returned, e.g. encoding
2^64 into 8 bytes yields the 8-byte encoding of 2^60. -/
theorem C4_encode_fixed_width_amended :
    (∀ (v w : ℕ), v < 256 ^ w →
        toBytes v w = beBytes w v ∧ (toBytes v w).length = w
          ∧ bytesToNatBE (toBytes v w) = v)
    ∧ toBytes (2 ^ 64) 8 = beBytes 8 (2 ^ 60) := by
  constructor
  · intro v w h
    refine ⟨toBytes_eq_beBytes w v h, toBytes_length_of_lt h, ?_⟩
    rw [toBytes_eq_beBytes w v h]
    exact bytesToNatBE_beBytes w v h
  · rw [toBytes_two_pow_64]
    decide

/-- Witness for the C4 amendment: 5 encoded into 4 bytes. -/
theorem C4_encode_fixed_width_amended_witness :
    toBytes 5 4 = beBytes 4 5 ∧ (toBytes 5 4).length = 4
      ∧ bytesToNatBE (toBytes 5 4) = 5 :=
  C4_encode_fixed_width_amended.1 5 4 (by norm_num)

end Hibachi

namespace Hibachi

/-- Counterexample to C5: when the recovery id is absent the signature
payload is left as the initial empty string (0 hex characters), not a
64-byte (128-hex-char) signature. -/
theorem C5_absent_recovery_counterexample :
    signaturePayloadOf ⟨1, 1, none⟩ = some []
    ∧ (signaturePayloadOf ⟨1, 1, none⟩).map List.length = some 0
    ∧ (0 : ℕ) ≠ 128 := by
  have h : signaturePayloadOf ⟨1, 1, none⟩ = some [] := by
    have hsig : signatureToBytes ⟨1, 1, none⟩ = some (beBytes 32 1 ++ beBytes 32 1) := by
      simp [signatureToBytes, toArrayLikeBE]
    simp only [signaturePayloadOf, hsig]
  refine ⟨h, by rw [h]; rfl, by norm_num⟩

/-- C5 amended: with a recovery id present (including 0) the payload is the
hex encoding of the 32-byte zero-padded r followed by the 32-byte
zero-padded s with the recovery id appended as a 1-byte hex suffix, 130 hex
characters in all; with the recovery id absent the payload stays the empty
string (length 0), silently and with no error. -/
theorem C5_signature_payload_amended :
    (∀ (sig : EcdsaSignature) (rp : ℕ), sig.r < 256 ^ 32 → sig.s < 256 ^ 32 →
        sig.recoveryParam = some rp → rp < 16 →
        signaturePayloadOf sig
          = some (bytesToHexChars (beBytes 32 sig.r ++ beBytes 32 sig.s) ++ [0, rp])
        ∧ ∀ l, signaturePayloadOf sig = some l → l.length = 130)
    ∧ (∀ sig : EcdsaSignature, sig.r < 256 ^ 32 → sig.s < 256 ^ 32 →
        sig.recoveryParam = none → signaturePayloadOf sig = some []) := by
  constructor
  · intro sig rp hr hs hrp hrp16
    have hsig : signatureToBytes sig = some (beBytes 32 sig.r ++ beBytes 32 sig.s) := by
      simp only [signatureToBytes, toArrayLikeBE]
      rw [if_pos hr, if_pos hs]
    have hpad : padStart (hexDigitsBE rp) 2 = [0, rp] := by
      rw [hexDigitsBE_of_lt hrp16]
      rfl
    have hmain : signaturePayloadOf sig
        = some (bytesToHexChars (beBytes 32 sig.r ++ beBytes 32 sig.s) ++ [0, rp]) := by
      simp only [signaturePayloadOf, hsig, hrp, hpad]
    refine ⟨hmain, ?_⟩
    intro l hl
    rw [hmain] at hl
    obtain rfl := Option.some_inj.mp hl
    rw [List.length_append, bytesToHexChars_length, List.length_append,
      beBytes_length, beBytes_length]
    rfl
  · intro sig hr hs hrp
    have hsig : signatureToBytes sig = some (beBytes 32 sig.r ++ beBytes 32 sig.s) := by
      simp only [signatureToBytes, toArrayLikeBE]
      rw [if_pos hr, if_pos hs]
    simp only [signaturePayloadOf, hsig, hrp]

/-- Witness for the C5 amendment: recovery id 0 yields the 130-hex-char
payload ending in the 1-byte suffix 00. -/
theorem C5_signature_payload_amended_witness :
    signaturePayloadOf ⟨1, 1, some 0⟩
      = some (bytesToHexChars (beBytes 32 1 ++ beBytes 32 1) ++ [0, 0]) :=
  (C5_signature_payload_amended.1 ⟨1, 1, some 0⟩ 0 (by norm_num) (by norm_num)
    rfl (by norm_num)).1

/-- Counterexample to C9: in the HMAC SDK's sendBatchOrder, two batch
elements without supplied nonces processed in the same millisecond receive
equal nonces, so batch nonces are not strictly increasing. -/
theorem C9_batch_nonce_counterexample :
    hmacBatchNonces (fun _ => 1700000000000) [none, none]
      = [1700000000000, 1700000000000]
    ∧ ¬ List.Chain' (fun a b => a < b)
        (hmacBatchNonces (fun _ => 1700000000000) [none, none]) := by
  have h1 : hmacBatchNonces (fun _ => 1700000000000) [none, none]
      = [1700000000000, 1700000000000] := by decide
  refine ⟨h1, ?_⟩
  rw [h1]
  intro hc
  rw [List.chain'_cons] at hc
  exact absurd hc.1 (by norm_num)

/-- C9 amended: in the ECDSA SDK's sendBatchOrder every element's nonce is
overwritten with the timestamp read at its own iteration plus the element
index, so with a non-decreasing clock the batch nonces are strictly
increasing; the HMAC SDK instead assigns a bare per-iteration timestamp
only to elements without a truthy nonce, with no index offset. -/
theorem C9_batch_nonce_amended :
    (∀ (now : ℕ → ℕ) (n : ℕ), Monotone now →
        List.Chain' (fun a b => a < b) (ecdsaBatchNonces now n))
    ∧ (∀ (now : ℕ → ℕ) (n i : ℕ), i < n →
        (ecdsaBatchNonces now n)[i]? = some (now i + i)) := by
  constructor
  · intro now n hmono
    rw [ecdsaBatchNonces, List.chain'_map]
    refine List.Pairwise.chain' ?_
    refine (List.pairwise_lt_range n).imp ?_
    intro a b hab
    have := hmono (le_of_lt hab)
    omega
  · intro now n i hi
    simp [ecdsaBatchNonces, List.getElem?_map, List.getElem?_range, hi]

/-- Witness for the C9 amendment with the identity clock and three
elements. -/
theorem C9_batch_nonce_amended_witness :
    List.Chain' (fun a b => a < b) (ecdsaBatchNonces id 3)
    ∧ (ecdsaBatchNonces id 3)[1]? = some 2 :=
  ⟨C9_batch_nonce_amended.1 id 3 monotone_id,
   C9_batch_nonce_amended.2 id 3 1 (by norm_num)⟩

/-- C10: in the ECDSA SDK's sendBatchOrder a modify element is serialized
with contractId hard-coded to 2, ignoring any contractId on the element,
while a place element is serialized with the contractId it carries. -/
theorem C10_batch_modify_contract_id :
    (∀ (e : BatchElement) (nonce c : ℕ), e.action = BatchAction.modify →
        batchElementDigest e nonce
          = batchElementDigest { e with contractId := c } nonce
        ∧ batchElementDigest e nonce
          = serializeOrder
              { nonce := nonce, contractId := 2, side := e.side,
                price := e.updatedPrice, totalQuantity := e.updatedQuantity,
                maxFees := some e.maxFeesPercent } e.underlyingDecimals)
    ∧ (∀ (e : BatchElement) (nonce : ℕ), e.action = BatchAction.place →
        batchElementDigest e nonce
          = serializeOrder
              { nonce := nonce, contractId := e.contractId, side := e.side,
                price := e.price, totalQuantity := e.quantity,
                maxFees := some e.maxFeesPercent } e.underlyingDecimals) := by
  constructor
  · intro e nonce c h
    exact ⟨by simp [batchElementDigest, h], by simp [batchElementDigest, h]⟩
  · intro e nonce h
    simp [batchElementDigest, h]

/-- Witness for C10: a modify element keeps the same digest when its
contractId is changed from 5 to 99, and a place element uses its own
contractId 5. -/
theorem C10_batch_modify_contract_id_witness :
    batchElementDigest
        ⟨BatchAction.modify, 5, 1, 1, OrderSide.ASK, none, none, 0, 0, 0⟩ 7
      = batchElementDigest
        ⟨BatchAction.modify, 99, 1, 1, OrderSide.ASK, none, none, 0, 0, 0⟩ 7
    ∧ batchElementDigest
        ⟨BatchAction.place, 5, 1, 1, OrderSide.ASK, none, none, 0, 0, 0⟩ 7
      = serializeOrder ⟨7, 5, OrderSide.ASK, none, 1, some 0⟩ 0 :=
  ⟨(C10_batch_modify_contract_id.1
      ⟨BatchAction.modify, 5, 1, 1, OrderSide.ASK, none, none, 0, 0, 0⟩ 7 99 rfl).1,
   C10_batch_modify_contract_id.2
      ⟨BatchAction.place, 5, 1, 1, OrderSide.ASK, none, none, 0, 0, 0⟩ 7 rfl⟩

end Hibachi

namespace Hibachi

theorem modSqrtCandidate_sq (p : ℕ) (hp : p.Prime) (hp4 : p % 4 = 3)
    (a y : ZMod p) (ha : y ^ 2 = a) : modSqrtCandidate p a ^ 2 = a := by
  haveI : Fact p.Prime := ⟨hp⟩
  subst ha
  rw [modSqrtCandidate]
  by_cases hy : y = 0
  · subst hy
    have hk : (p + 1) / 4 ≠ 0 := by
      have h2 := hp.two_le
      omega
    have h02 : (0 : ZMod p) ^ 2 = 0 := zero_pow two_ne_zero
    rw [h02, zero_pow hk, h02]
  · have h2 := hp.two_le
    rw [← pow_mul, ← pow_mul]
    rw [show 2 * ((p + 1) / 4 * 2) = (p - 1) + 2 from by omega]
    rw [pow_add, ZMod.pow_card_sub_one_eq_one hy, one_mul]

theorem neg_parity_ne (p : ℕ) (hp : p.Prime) (hp4 : p % 4 = 3)
    (y : ZMod p) (hy : y ≠ 0) :
    decide ((-y).val % 2 = 1) = ! decide (y.val % 2 = 1) := by
  haveI : Fact p.Prime := ⟨hp⟩
  have h1 : y.val < p := ZMod.val_lt y
  have h2 : y.val ≠ 0 := fun h0 => hy ((ZMod.val_eq_zero y).mp h0)
  rw [ZMod.neg_val, if_neg hy, ← decide_not]
  exact decide_eq_decide.mpr (by omega)

theorem sq_eq_sq_cases (p : ℕ) (hp : p.Prime) (a b : ZMod p)
    (h : a ^ 2 = b ^ 2) : a = b ∨ a = -b := by
  haveI : Fact p.Prime := ⟨hp⟩
  have hfac : (a - b) * (a + b) = 0 := by linear_combination h
  rcases mul_eq_zero.mp hfac with h1 | h2
  · exact Or.inl (sub_eq_zero.mp h1)
  · exact Or.inr (eq_neg_of_add_eq_zero_left h2)

/-- C8: over a prime field with p ≡ 3 (mod 4) and the curve y² = x³ + 7
(secp256k1 has both properties), the key codec round-trips in both
directions: decompressing the compression of a valid uncompressed key
returns the original key, and compressing the decompression of a valid
compressed key returns the original compressed key. -/
theorem C8_key_codec_roundtrip (p : ℕ) (hp : p.Prime) (hp4 : p % 4 = 3)
    (x y : ZMod p) (hcurve : y ^ 2 = x ^ 3 + 7) :
    decompressPoint p (compressPoint (⟨x, y⟩ : UncompressedPoint p)) = ⟨x, y⟩
    ∧ ∀ c : CompressedPoint p,
        (∃ y0 : ZMod p, y0 ^ 2 = c.x ^ 3 + 7
          ∧ decide (y0.val % 2 = 1) = c.parityOdd) →
        compressPoint (decompressPoint p c) = c := by
  haveI : Fact p.Prime := ⟨hp⟩
  constructor
  · show (⟨x, if decide ((modSqrtCandidate p (x ^ 3 + 7)).val % 2 = 1)
          = decide (y.val % 2 = 1)
        then modSqrtCandidate p (x ^ 3 + 7)
        else -(modSqrtCandidate p (x ^ 3 + 7))⟩ : UncompressedPoint p) = ⟨x, y⟩
    set y0 := modSqrtCandidate p (x ^ 3 + 7) with hy0def
    have hsq : y0 ^ 2 = y ^ 2 := by
      rw [hy0def, modSqrtCandidate_sq p hp hp4 (x ^ 3 + 7) y hcurve]
      exact hcurve.symm
    rcases sq_eq_sq_cases p hp y0 y hsq with he | he
    · rw [he]
      simp
    · by_cases hy : y = 0
      · subst hy
        rw [neg_zero] at he
        rw [he]
        simp
      · rw [he, neg_parity_ne p hp hp4 y hy]
        rw [if_neg (Bool.not_ne_self _), neg_neg]
  · rintro c ⟨w, hw, hwpar⟩
    obtain ⟨b, cx⟩ := c
    show (⟨decide ((if decide ((modSqrtCandidate p (cx ^ 3 + 7)).val % 2 = 1) = b
          then modSqrtCandidate p (cx ^ 3 + 7)
          else -(modSqrtCandidate p (cx ^ 3 + 7))).val % 2 = 1), cx⟩
        : CompressedPoint p) = ⟨b, cx⟩
    set y0 := modSqrtCandidate p (cx ^ 3 + 7) with hy0def
    have hw' : w ^ 2 = cx ^ 3 + 7 := hw
    have hwpar' : decide (w.val % 2 = 1) = b := hwpar
    have hsq : y0 ^ 2 = w ^ 2 := by
      rw [hy0def, modSqrtCandidate_sq p hp hp4 (cx ^ 3 + 7) w hw']
      exact hw'.symm
    by_cases hcnd : decide (y0.val % 2 = 1) = b
    · rw [if_pos hcnd, hcnd]
    · rw [if_neg hcnd]
      rcases sq_eq_sq_cases p hp y0 w hsq with he | he
      · rw [← he] at hwpar'
        exact absurd hwpar' hcnd
      · by_cases hw0 : w = 0
        · subst hw0
          rw [neg_zero] at he
          rw [he] at hcnd
          exact absurd hwpar' hcnd
        · have hnw : -y0 = w := by rw [he, neg_neg]
          rw [hnw, hwpar']

/-- Witness for C8 at the prime 7 ≡ 3 (mod 4) with the curve point (1, 1):
both round-trip directions at a concrete input. -/
theorem C8_key_codec_roundtrip_witness :
    decompressPoint 7 (compressPoint (⟨1, 1⟩ : UncompressedPoint 7)) = ⟨1, 1⟩
    ∧ compressPoint (decompressPoint 7 (⟨true, 1⟩ : CompressedPoint 7))
      = ⟨true, 1⟩ :=
  ⟨(C8_key_codec_roundtrip 7 (by norm_num) (by norm_num) 1 1 (by decide)).1,
   (C8_key_codec_roundtrip 7 (by norm_num) (by norm_num) 1 1 (by decide)).2
     ⟨true, 1⟩ ⟨1, by decide, by decide⟩⟩

end Hibachi
